import Mathlib

/-!
# Conversions between typed values and `AnyCollection` trees (`Cpp/IO/JSON.h`)

A shallow embedding of the conversion templates of `Cpp/IO/JSON.h`:

* the default conversions `Convert(const T&,AnyCollection&)` and
  `Convert(const AnyCollection&,T&)`;
* the array conversions `Convert(const std::vector<T>&,AnyCollection&)` and
  `Convert(const AnyCollection&,std::vector<T>&)`;
* the stream entry points `SaveJSON` and `LoadJSON`.

C++ reference parameters are passed as explicit state: a conversion into a
collection takes the previous contents of the node and returns the new
contents, a conversion from a collection takes the previous contents of the
destination and returns the success flag with the new contents.  A result of
`none` stands for a run that performs an operation the tree (or the vector)
does not define, such as indexing a node that is not a sequence.

The overloads of `Convert` are told apart by a suffix, and the conversion that
overload resolution picks for the element type of a vector is an explicit
argument (`enc`, `dec`).  Sizes and loop counters are natural numbers.  The
array conversions come in two forms: `Convert_vector_to` and
`Convert_vector_from` index the tree with the counter itself, and
`Convert_vector_to_cast` and `Convert_vector_from_cast` index it with
`(int)i`, a 32-bit `int`.  The two forms agree on every vector and every node
of at most `2^31` elements, and differ beyond, where `(int)i` is negative.

`AnyCollection` belongs to KrisLibrary and is not part of this source file; the
operations the conversions use are modelled below from the specification.
-/

universe u

/-- Modelled from the spec: the value tree (`AnyCollection`, declared in
`KrisLibrary/utils/AnyCollection.h`, which is not among the sources).  A node
is a tagged union of an absent node, a scalar and an ordered sequence of
nodes, as in the data model of the spec; `S` is the type of stored scalars.
Record-shaped nodes are used by the aggregate conversions only, which this
file declares and does not define. -/
inductive AnyCollection (S : Type u) : Type u where
  | null : AnyCollection S
  | value (s : S) : AnyCollection S
  | array (xs : List (AnyCollection S)) : AnyCollection S

namespace AnyCollection

variable {S : Type u} {T : Type u}

/-- Modelled from the spec: the tag test "sequence-tagged". -/
def isArray : AnyCollection S → Bool
  | array _ => true
  | _ => false

/-- Modelled from the spec: the size query `c.size()`.  A sequence node has the
size of its sequence.  The spec does not say what the query gives on a node
that is not a sequence, so that is the parameter `nss`. -/
def size (nss : AnyCollection S → Nat) : AnyCollection S → Nat
  | array xs => xs.length
  | c => nss c

/-- Modelled from the spec: `c.resize(n)` makes `c` a sequence node of size
`n`, keeping the leading children of a sequence and filling with absent
nodes. -/
def resize : AnyCollection S → Nat → AnyCollection S
  | array xs, n => array (xs.take n ++ List.replicate (n - xs.length) null)
  | _, n => array (List.replicate n null)

/-- Modelled from the spec: reading the slot `c[i]`.  Index access is valid
on sequence-tagged nodes only, and there within the size. -/
def get : AnyCollection S → Nat → Option (AnyCollection S)
  | array xs, i => xs.get? i
  | _, _ => none

/-- Modelled from the spec: writing through the reference `c[i]`, under the
same validity condition as `get`. -/
def set : AnyCollection S → Nat → AnyCollection S → Option (AnyCollection S)
  | array xs, i, x => if i < xs.length then some (array (xs.set i x)) else none
  | _, _, _ => none

/-- Modelled from the spec: the assignment `c = x` of a scalar, which makes
`c` a scalar node; `store` is the injection of `T` into the stored scalars. -/
def assign (store : T → S) (x : T) (_c : AnyCollection S) : AnyCollection S :=
  value (store x)

/-- Modelled from the spec: the typed extraction `c.as<T>(x)`, where `coerce`
says which stored scalars can be coerced to `T`.  It succeeds on a scalar
node whose scalar coerces, writing the coerced value to `x`, and fails
otherwise, leaving `x` as it was. -/
def as (coerce : S → Option T) : AnyCollection S → T → Bool × T
  | value s, x =>
    match coerce s with
    | some y => (true, y)
    | none => (false, x)
  | _, x => (false, x)

end AnyCollection

section Conversions

variable {S : Type u} {T : Type u}

/-- Embedding of `std::vector<T>::resize(n)` on a vector: truncation to `n`
elements, or extension with value-initialised elements. -/
def vectorResize [Inhabited T] (v : List T) (n : Nat) : List T :=
  v.take n ++ List.replicate (n - v.length) default

/-- Default conversion to collection: `c = x`. -/
def Convert_to (store : T → S) (x : T) (c : AnyCollection S) :
    Option (AnyCollection S) :=
  some (AnyCollection.assign store x c)

/-- Default conversion from collection: `return c.as<T>(x)`. -/
def Convert_from (coerce : S → Option T) (c : AnyCollection S) (x : T) :
    Option (Bool × T) :=
  some (c.as coerce x)

/-- The loop `for(i...) Convert(v[i],c[(int)i]);` over the indices `is`, with
the counter itself as the index: `(int)i` is `i` for every counter up to
`INT_MAX`.  `Convert_vector_to_cast_loop` is the loop with the conversion
explicit. -/
def Convert_vector_to_loop (enc : T → AnyCollection S → Option (AnyCollection S))
    (v : List T) : List Nat → AnyCollection S → Option (AnyCollection S)
  | [], c => some c
  | i :: is, c =>
    match v.get? i, c.get i with
    | some x, some slot =>
      match enc x slot with
      | some slot' =>
        match c.set i slot' with
        | some c' => Convert_vector_to_loop enc v is c'
        | none => none
      | none => none
    | _, _ => none

/-- Default conversion from array to collection:
`c.resize(v.size()); for(size_t i=0;i<v.size();i++) Convert(v[i],c[(int)i]);` -/
def Convert_vector_to (enc : T → AnyCollection S → Option (AnyCollection S))
    (v : List T) (c : AnyCollection S) : Option (AnyCollection S) :=
  Convert_vector_to_loop enc v (List.range v.length) (c.resize v.length)

/-- The loop `for(i...) if(!Convert(c[(int)i],v[i])) return false;` over the
indices `is`, followed by `return true`, with the counter itself as the index.
`Convert_vector_from_cast_loop` is the loop with the conversion explicit. -/
def Convert_vector_from_loop (dec : AnyCollection S → T → Option (Bool × T))
    (c : AnyCollection S) : List Nat → List T → Option (Bool × List T)
  | [], v => some (true, v)
  | i :: is, v =>
    match c.get i, v.get? i with
    | some ci, some x =>
      match dec ci x with
      | some (ok, x') =>
        if ok then Convert_vector_from_loop dec c is (v.set i x')
        else some (false, v.set i x')
      | none => none
    | _, _ => none

/-- Default conversion from collection to array:
`v.resize(c.size()); for(size_t i=0;i<v.size();i++)
if(!Convert(c[(int)i],v[i])) return false; return true;` -/
def Convert_vector_from [Inhabited T] (nss : AnyCollection S → Nat)
    (dec : AnyCollection S → T → Option (Bool × T))
    (c : AnyCollection S) (v : List T) : Option (Bool × List T) :=
  let v1 := vectorResize v (c.size nss)
  Convert_vector_from_loop dec c (List.range v1.length) v1

/-- The value of `(int)i` for a `size_t` counter `i`: the low 32 bits of `i`
read in two's complement, `int` being 32 bits wide.  It is `i` itself up to
`INT_MAX = 2^31 - 1` and negative from `2^31` to `2^32 - 1`. -/
def intOfSize (i : Nat) : Int :=
  if i % 2 ^ 32 < 2 ^ 31 then ((i % 2 ^ 32 : Nat) : Int)
  else ((i % 2 ^ 32 : Nat) : Int) - 2 ^ 32

/-- Modelled from the spec: reading the slot `c[i]` at an `int` index, valid
on a sequence node for `0 <= i < c.size()`. -/
def AnyCollection.getInt (c : AnyCollection S) (i : Int) : Option (AnyCollection S) :=
  if 0 ≤ i then c.get i.toNat else none

/-- Modelled from the spec: writing through the reference `c[i]` at an `int`
index, under the same validity condition as `getInt`. -/
def AnyCollection.setInt (c : AnyCollection S) (i : Int) (x : AnyCollection S) :
    Option (AnyCollection S) :=
  if 0 ≤ i then c.set i.toNat x else none

/-- The loop `for(i...) Convert(v[i],c[(int)i]);` over the counters `is`, with
the conversion `(int)i` of the counter explicit: the slot accessed is the one
at the index `intOfSize i`. -/
def Convert_vector_to_cast_loop (enc : T → AnyCollection S → Option (AnyCollection S))
    (v : List T) : List Nat → AnyCollection S → Option (AnyCollection S)
  | [], c => some c
  | i :: is, c =>
    match v.get? i, c.getInt (intOfSize i) with
    | some x, some slot =>
      match enc x slot with
      | some slot' =>
        match c.setInt (intOfSize i) slot' with
        | some c' => Convert_vector_to_cast_loop enc v is c'
        | none => none
      | none => none
    | _, _ => none

/-- Default conversion from array to collection, with the conversion `(int)i`
explicit: `c.resize(v.size()); for(size_t i=0;i<v.size();i++)
Convert(v[i],c[(int)i]);`.  It is `Convert_vector_to` for every vector of at
most `2^31` elements (`Convert_vector_to_cast_eq`). -/
def Convert_vector_to_cast (enc : T → AnyCollection S → Option (AnyCollection S))
    (v : List T) (c : AnyCollection S) : Option (AnyCollection S) :=
  Convert_vector_to_cast_loop enc v (List.range v.length) (c.resize v.length)

/-- The loop `for(i...) if(!Convert(c[(int)i],v[i])) return false;` over the
counters `is`, followed by `return true`, with the conversion `(int)i` of the
counter explicit. -/
def Convert_vector_from_cast_loop (dec : AnyCollection S → T → Option (Bool × T))
    (c : AnyCollection S) : List Nat → List T → Option (Bool × List T)
  | [], v => some (true, v)
  | i :: is, v =>
    match c.getInt (intOfSize i), v.get? i with
    | some ci, some x =>
      match dec ci x with
      | some (ok, x') =>
        if ok then Convert_vector_from_cast_loop dec c is (v.set i x')
        else some (false, v.set i x')
      | none => none
    | _, _ => none

/-- Default conversion from collection to array, with the conversion `(int)i`
explicit.  It is `Convert_vector_from` for every node of size at most `2^31`
(`Convert_vector_from_cast_eq`). -/
def Convert_vector_from_cast [Inhabited T] (nss : AnyCollection S → Nat)
    (dec : AnyCollection S → T → Option (Bool × T))
    (c : AnyCollection S) (v : List T) : Option (Bool × List T) :=
  let v1 := vectorResize v (c.size nss)
  Convert_vector_from_cast_loop dec c (List.range v1.length) v1

/-- Embedding of `SaveJSON`: `AnyCollection msg; Convert(x,msg); out<<msg;`.
The stream type `Strm` and the textual writer `write` of the tree are
parameters. -/
def SaveJSON {Strm : Type} (write : AnyCollection S → Strm → Strm)
    (enc : T → AnyCollection S → Option (AnyCollection S))
    (out : Strm) (x : T) : Option Strm :=
  match enc x AnyCollection.null with
  | some msg => some (write msg out)
  | none => none

/-- Default conversion from collection as the call `Convert(msg,x)` of
`LoadJSON` binds it.  There `x` is `const T&`: the conversion from collection
to array cannot deduce `std::vector<T>&` from a const vector and the aggregate
conversions take a non-const reference, so the only viable overload is the
default template at `const T`, `return c.as<const T>(x)`.  The flag is that of
the typed extraction; the destination is const and keeps its value. -/
def Convert_from_const (coerce : S → Option T) (c : AnyCollection S) (x : T) :
    Option (Bool × T) :=
  some ((c.as coerce x).1, x)

/-- Embedding of `LoadJSON`: `AnyCollection msg; in >> msg; if(!in) return
false; return Convert(msg,x);` with `const T& x`.  The textual reader `read`
gives the tree read into the fresh `msg` and the stream after the read, `bad`
is the test `!in`, and `Convert(msg,x)` is the default template at `const T`
(`Convert_from_const`), whatever conversions exist for `T`.  The result is
the flag, the destination and the stream. -/
def LoadJSON {Strm : Type} (read : Strm → AnyCollection S × Strm)
    (bad : Strm → Bool) (coerce : S → Option T)
    (inp : Strm) (x : T) : Option (Bool × T × Strm) :=
  let r := read inp
  if bad r.2 then some (false, x, r.2)
  else
    match Convert_from_const coerce r.1 x with
    | some (ok, x') => some (ok, x', r.2)
    | none => none

end Conversions

/-! ## Element-wise descriptions of the two loops, and an example stream -/

section Loops

variable {S : Type u} {T : Type u}

/-- Element-wise encoding of the values `xs` into the slots `ss`, first to
last: the effect of the encoding loop on the children, written by recursion
on the lists (a device of the proofs, not part of the source). -/
def encodeSlots (enc : T → AnyCollection S → Option (AnyCollection S)) :
    List T → List (AnyCollection S) → Option (List (AnyCollection S))
  | x :: xs, s :: ss =>
    match enc x s with
    | some s' =>
      match encodeSlots enc xs ss with
      | some r => some (s' :: r)
      | none => none
    | none => none
  | [], _ => some []
  | _ :: _, [] => none

/-- Element-wise decoding of the children `cs` into the elements `xs`, first
to last, stopping at the first element decode that returns `false`: the effect
of the decoding loop, written by recursion on the lists (a device of the
proofs, not part of the source). -/
def decodeElems (dec : AnyCollection S → T → Option (Bool × T)) :
    List (AnyCollection S) → List T → Option (Bool × List T)
  | c :: cs, x :: xs =>
    match dec c x with
    | some (ok, x') =>
      if ok then
        match decodeElems dec cs xs with
        | some r => some (r.1, x' :: r.2)
        | none => none
      else some (false, x' :: xs)
    | none => none
  | _, xs => some (true, xs)

/-- The children of the node that `resize` leaves. -/
def resizedSlots (c : AnyCollection S) (n : Nat) : List (AnyCollection S) :=
  match c with
  | AnyCollection.array xs => xs.take n ++ List.replicate (n - xs.length) AnyCollection.null
  | _ => List.replicate n AnyCollection.null

/-- A stream for the examples: the trees still to be read, and the failure
flag; writing appends a tree, reading takes the first one and fails on an
empty stream. -/
def exampleWrite (t : AnyCollection Int) (s : List (AnyCollection Int) × Bool) :
    List (AnyCollection Int) × Bool :=
  (s.1 ++ [t], s.2)

/-- The reader of the example stream. -/
def exampleRead (s : List (AnyCollection Int) × Bool) :
    AnyCollection Int × (List (AnyCollection Int) × Bool) :=
  match s.1 with
  | t :: rest => (t, (rest, s.2))
  | [] => (AnyCollection.null, ([], true))

end Loops

/-! ## Nested vectors and registered aggregates -/

section Nested

variable {S : Type u} {T : Type u}

/-- The type `std::vector<...std::vector<T>...>` with `d` levels of `vector`
around the scalar type `T`. -/
def NestedVector (T : Type u) : Nat → Type u
  | 0 => T
  | d + 1 => List (NestedVector T d)

/-- The conversion to collection that overload resolution picks for a value
nested `d` deep: the default conversion for the scalar, and the conversion
from array to collection (with `(int)i` explicit) over the conversion of the
elements for a vector. -/
def Convert_nested_to (store : T → S) :
    (d : Nat) → NestedVector T d → AnyCollection S → Option (AnyCollection S)
  | 0 => Convert_to store
  | d + 1 => Convert_vector_to_cast (Convert_nested_to store d)

/-- Every vector of a nested value, at every level, has at most `2^31`
elements, so that every loop counter of its conversion is at most `INT_MAX`. -/
def NestedVector.fitsInt {T : Type u} : (d : Nat) → NestedVector T d → Bool
  | 0, _ => true
  | d + 1, v =>
    let w : List (NestedVector T d) := v
    decide (w.length ≤ 2 ^ 31) && w.all (NestedVector.fitsInt d)

/-- Modelled from the spec: a record-shaped node of the value tree, the named
slots into which a registered aggregate is encoded (the record shape of
`AnyCollection`, which the templates above never touch). -/
def RecordNode (S : Type u) : Type u := List (String × AnyCollection S)

/-- Modelled from the spec: the error kinds of the conversion layer (section 7
of the spec), with the identifier of the failing field attached to a nested
failure (section 4.3). -/
inductive ConversionError where
  | TypeMismatch : ConversionError
  | ShapeMismatch : ConversionError
  | MissingField (name : String) : ConversionError
  | SizeMismatch : ConversionError
  | StreamError : ConversionError
  | AtField (name : String) (e : ConversionError) : ConversionError

/-- Modelled from the spec: a required field of a registered aggregate `A`,
with its name and the conversion pair of the field; the decode of a field
writes the field of the aggregate it is given, or fails with an error.  The
aggregate conversions are declared in `JSON.h` and defined in
`Cpp/IO/JSON.cpp`, which is not among the sources. -/
structure AggregateField (S A : Type u) where
  /-- The name of the slot. -/
  name : String
  /-- The encoding of the field of an aggregate. -/
  enc : A → AnyCollection S → Option (AnyCollection S)
  /-- The decoding of a slot into the field of an aggregate. -/
  dec : AnyCollection S → A → Except ConversionError A

/-- Modelled from the spec: the body of `void Convert(const A&,AnyCollection&)`
for a registered aggregate (defined in `Cpp/IO/JSON.cpp`, not among the
sources): each named field is encoded into the slot of its name. -/
def Convert_aggregate_to {A : Type u} :
    List (AggregateField S A) → A → Option (RecordNode S)
  | [], _ => some []
  | f :: fs, a =>
    match f.enc a AnyCollection.null with
    | some c =>
      match Convert_aggregate_to fs a with
      | some r => some ((f.name, c) :: r)
      | none => none
    | none => none

/-- Modelled from the spec: the decode of a registered aggregate (section 4.3
of the spec; declared `bool Convert(const AnyCollection&,A&)` in `JSON.h` and
defined in `Cpp/IO/JSON.cpp`, not among the sources).  The required fields
are decoded in turn from the slots of their names; the decode fails with
`MissingField` naming the field at the first required slot that is absent,
and with the nested failure and the identifier of the field at the first slot
whose decode fails.  The result is the `Result<T, ConversionError>` of the
spec, of which the `bool` of the declaration is the success. -/
def Convert_aggregate_from {A : Type u} :
    List (AggregateField S A) → RecordNode S → A → Except ConversionError A
  | [], _, a => Except.ok a
  | f :: fs, r, a =>
    match List.lookup f.name r with
    | none => Except.error (ConversionError.MissingField f.name)
    | some c =>
      match f.dec c a with
      | Except.ok a' => Convert_aggregate_from fs r a'
      | Except.error e => Except.error (ConversionError.AtField f.name e)

/-- Removal of the slot named `name` from a record-shaped node. -/
def removeField (name : String) (r : RecordNode S) : RecordNode S :=
  List.filter (fun p => p.1 != name) r

/-- Modelled from the spec: the aggregate `{x, y, z}` of the spec's scenario
(`Math3D::Vector3`, declared in KrisLibrary, not among the sources). -/
structure Math3D.Vector3 where
  /-- First coordinate. -/
  x : Float
  /-- Second coordinate. -/
  y : Float
  /-- Third coordinate. -/
  z : Float

/-- Modelled from the spec: the required field `x` of `Vector3`, converted by
the default scalar conversion. -/
def vector3FieldX : AggregateField Float Math3D.Vector3 where
  name := "x"
  enc := fun a c => Convert_to (fun t : Float => t) a.x c
  dec := fun c a =>
    match Convert_from (fun t : Float => some t) c a.x with
    | some (true, t) => Except.ok { a with x := t }
    | _ => Except.error ConversionError.TypeMismatch

/-- Modelled from the spec: the required field `y` of `Vector3`, converted by
the default scalar conversion. -/
def vector3FieldY : AggregateField Float Math3D.Vector3 where
  name := "y"
  enc := fun a c => Convert_to (fun t : Float => t) a.y c
  dec := fun c a =>
    match Convert_from (fun t : Float => some t) c a.y with
    | some (true, t) => Except.ok { a with y := t }
    | _ => Except.error ConversionError.TypeMismatch

/-- Modelled from the spec: the required field `z` of `Vector3`, converted by
the default scalar conversion. -/
def vector3FieldZ : AggregateField Float Math3D.Vector3 where
  name := "z"
  enc := fun a c => Convert_to (fun t : Float => t) a.z c
  dec := fun c a =>
    match Convert_from (fun t : Float => some t) c a.z with
    | some (true, t) => Except.ok { a with z := t }
    | _ => Except.error ConversionError.TypeMismatch

/-- Modelled from the spec: the required fields `x`, `y`, `z` of `Vector3`,
in the order of the spec's scenario. -/
def vector3Fields : List (AggregateField Float Math3D.Vector3) :=
  [vector3FieldX, vector3FieldY, vector3FieldZ]

end Nested

/-! ## The loops, element by element -/

section LoopLemmas

variable {S : Type u} {T : Type u}

theorem take_succ_set {α : Type u} (ys : List α) : ∀ (s : Nat) (a : α),
    s < ys.length → (ys.set s a).take (s + 1) = ys.take s ++ [a] := by
  induction ys with
  | nil => intro s a h; simp at h
  | cons y ys ih =>
    intro s a h
    cases s with
    | zero => simp
    | succ s =>
      have h' : s < ys.length := by simpa using h
      simp [ih s a h']

theorem encode_loop_eq (enc : T → AnyCollection S → Option (AnyCollection S))
    (v : List T) (k : Nat) : ∀ (s : Nat) (ys : List (AnyCollection S)),
    s + k = v.length → ys.length = v.length →
    Convert_vector_to_loop enc v (List.range' s k) (AnyCollection.array ys) =
      (encodeSlots enc (v.drop s) (ys.drop s)).map
        (fun zs => AnyCollection.array (ys.take s ++ zs)) := by
  induction k with
  | zero =>
    intro s ys hs hy
    have h1 : v.drop s = [] := List.drop_eq_nil_of_le (by omega)
    have h2 : ys.take s = ys := List.take_of_length_le (by omega)
    simp [Convert_vector_to_loop, encodeSlots, h1, h2]
  | succ k ih =>
    intro s ys hs hy
    have hsv : s < v.length := by omega
    have hsy : s < ys.length := by omega
    have h1 : v.drop s = v[s] :: v.drop (s + 1) := List.drop_eq_getElem_cons hsv
    have h2 : ys.drop s = ys[s] :: ys.drop (s + 1) := List.drop_eq_getElem_cons hsy
    rw [List.range'_succ, h1, h2]
    simp only [Convert_vector_to_loop, AnyCollection.get, List.get?_eq_getElem?,
      List.getElem?_eq_getElem hsv, List.getElem?_eq_getElem hsy, encodeSlots]
    cases henc : enc v[s] ys[s] with
    | none => simp
    | some s' =>
      simp only [AnyCollection.set, hsy, if_true]
      rw [ih (s + 1) (ys.set s s') (by omega) (by simp [hy])]
      have h3 : (ys.set s s').drop (s + 1) = ys.drop (s + 1) :=
        List.drop_set_of_lt _ _ (by omega)
      have h4 : (ys.set s s').take (s + 1) = ys.take s ++ [s'] :=
        take_succ_set ys s s' hsy
      rw [h3, h4]
      cases encodeSlots enc (v.drop (s + 1)) (ys.drop (s + 1)) <;> simp

theorem decode_loop_eq (dec : AnyCollection S → T → Option (Bool × T))
    (cs : List (AnyCollection S)) (k : Nat) : ∀ (s : Nat) (v : List T),
    s + k = cs.length → v.length = cs.length →
    Convert_vector_from_loop dec (AnyCollection.array cs) (List.range' s k) v =
      (decodeElems dec (cs.drop s) (v.drop s)).map
        (fun r => (r.1, v.take s ++ r.2)) := by
  induction k with
  | zero =>
    intro s v hs hv
    have h1 : cs.drop s = [] := List.drop_eq_nil_of_le (by omega)
    have h2 : v.drop s = [] := List.drop_eq_nil_of_le (by omega)
    have h3 : v.take s = v := List.take_of_length_le (by omega)
    simp [Convert_vector_from_loop, decodeElems, h1, h2, h3]
  | succ k ih =>
    intro s v hs hv
    have hsc : s < cs.length := by omega
    have hsv : s < v.length := by omega
    have h1 : cs.drop s = cs[s] :: cs.drop (s + 1) := List.drop_eq_getElem_cons hsc
    have h2 : v.drop s = v[s] :: v.drop (s + 1) := List.drop_eq_getElem_cons hsv
    rw [List.range'_succ, h1, h2]
    simp only [Convert_vector_from_loop, AnyCollection.get, List.get?_eq_getElem?,
      List.getElem?_eq_getElem hsv, List.getElem?_eq_getElem hsc, decodeElems]
    cases hdec : dec cs[s] v[s] with
    | none => simp
    | some r =>
      obtain ⟨ok, x'⟩ := r
      have h3 : (v.set s x').drop (s + 1) = v.drop (s + 1) :=
        List.drop_set_of_lt _ _ (by omega)
      have h4 : (v.set s x').take (s + 1) = v.take s ++ [x'] :=
        take_succ_set v s x' hsv
      have h5 : v.set s x' = v.take s ++ x' :: v.drop (s + 1) := by
        conv_lhs => rw [← List.take_append_drop (s + 1) (v.set s x')]
        rw [h3, h4]; simp
      cases ok with
      | false => simp [h5]
      | true =>
        simp only [if_true]
        rw [ih (s + 1) (v.set s x') (by omega) (by simp [hv]), h3, h4]
        cases decodeElems dec (cs.drop (s + 1)) (v.drop (s + 1)) <;> simp

theorem length_vectorResize [Inhabited T] (v : List T) (n : Nat) :
    (vectorResize v n).length = n := by
  simp only [vectorResize, List.length_append, List.length_take, List.length_replicate]
  omega

theorem resize_eq_array (c : AnyCollection S) (n : Nat) :
    c.resize n = AnyCollection.array (resizedSlots c n) := by
  cases c <;> rfl

theorem length_resizedSlots (c : AnyCollection S) (n : Nat) :
    (resizedSlots c n).length = n := by
  cases c with
  | array xs =>
    simp only [resizedSlots, List.length_append, List.length_take, List.length_replicate]
    omega
  | null => simp [resizedSlots]
  | value s => simp [resizedSlots]

/-- The array encoding is the element-wise encoding into the resized slots. -/
theorem Convert_vector_to_eq (enc : T → AnyCollection S → Option (AnyCollection S))
    (v : List T) (c : AnyCollection S) :
    Convert_vector_to enc v c =
      (encodeSlots enc v (resizedSlots c v.length)).map AnyCollection.array := by
  unfold Convert_vector_to
  rw [resize_eq_array, List.range_eq_range',
    encode_loop_eq enc v v.length 0 _ (by simp) (length_resizedSlots c v.length)]
  simp

/-- The array decoding of a sequence node is the element-wise decoding into
the resized vector. -/
theorem Convert_vector_from_array [Inhabited T] (nss : AnyCollection S → Nat)
    (dec : AnyCollection S → T → Option (Bool × T))
    (cs : List (AnyCollection S)) (v : List T) :
    Convert_vector_from nss dec (AnyCollection.array cs) v =
      decodeElems dec cs (vectorResize v cs.length) := by
  unfold Convert_vector_from
  simp only [AnyCollection.size, length_vectorResize]
  rw [List.range_eq_range',
    decode_loop_eq dec cs cs.length 0 _ (by simp) (length_vectorResize v cs.length)]
  cases h : decodeElems dec cs (vectorResize v cs.length) <;> simp [h]

theorem decodeElems_true (dec : AnyCollection S → T → Option (Bool × T)) :
    ∀ (cs : List (AnyCollection S)) (xs r : List T),
    decodeElems dec cs xs = some (true, r) →
    r.length = xs.length ∧
      ∀ (i : Nat) (c : AnyCollection S) (x : T), cs[i]? = some c → xs[i]? = some x →
        ∃ y, dec c x = some (true, y) ∧ r[i]? = some y := by
  intro cs
  induction cs with
  | nil =>
    intro xs r h
    simp only [decodeElems, Option.some.injEq, Prod.mk.injEq, true_and] at h
    subst h
    simp
  | cons c cs ih =>
    intro xs r h
    cases xs with
    | nil =>
      simp only [decodeElems, Option.some.injEq, Prod.mk.injEq, true_and] at h
      subst h
      simp
    | cons x xs =>
      simp only [decodeElems] at h
      cases h1 : dec c x with
      | none => simp [h1] at h
      | some p =>
        obtain ⟨ok, x'⟩ := p
        cases ok with
        | false => simp [h1] at h
        | true =>
          cases h2 : decodeElems dec cs xs with
          | none => simp [h1, h2] at h
          | some q =>
            obtain ⟨b, r'⟩ := q
            simp only [h1, h2, if_true, Option.some.injEq, Prod.mk.injEq] at h
            obtain ⟨hb, hr⟩ := h
            subst hb hr
            obtain ⟨hl, hi⟩ := ih xs r' h2
            refine ⟨by simp [hl], ?_⟩
            intro i c0 x0 hc hx
            cases i with
            | zero =>
              simp only [List.getElem?_cons_zero, Option.some.injEq] at hc hx
              subst hc hx
              exact ⟨x', h1, by simp⟩
            | succ i =>
              simp only [List.getElem?_cons_succ] at hc hx
              obtain ⟨y, hy, hr⟩ := hi i c0 x0 hc hx
              exact ⟨y, hy, by simpa using hr⟩

theorem decodeElems_false (dec : AnyCollection S → T → Option (Bool × T)) :
    ∀ (cs : List (AnyCollection S)) (xs r : List T),
    decodeElems dec cs xs = some (false, r) →
    r.length = xs.length ∧
      ∃ (k : Nat) (c : AnyCollection S) (x y : T),
        cs[k]? = some c ∧ xs[k]? = some x ∧ dec c x = some (false, y) ∧ r[k]? = some y ∧
        (∀ (i : Nat) (c0 : AnyCollection S) (x0 : T), i < k → cs[i]? = some c0 →
          xs[i]? = some x0 → ∃ y0, dec c0 x0 = some (true, y0) ∧ r[i]? = some y0) ∧
        (∀ (i : Nat), k < i → r[i]? = xs[i]?) := by
  intro cs
  induction cs with
  | nil => intro xs r h; simp [decodeElems] at h
  | cons c cs ih =>
    intro xs r h
    cases xs with
    | nil => simp [decodeElems] at h
    | cons x xs =>
      simp only [decodeElems] at h
      cases h1 : dec c x with
      | none => simp [h1] at h
      | some p =>
        obtain ⟨ok, x'⟩ := p
        cases ok with
        | false =>
          simp only [h1, Bool.false_eq_true, if_false, Option.some.injEq, Prod.mk.injEq,
            true_and] at h
          subst h
          refine ⟨by simp, 0, c, x, x', by simp, by simp, h1, by simp, ?_, ?_⟩
          · intro i c0 x0 hi; omega
          · intro i hi
            obtain ⟨j, rfl⟩ : ∃ j, i = j + 1 := ⟨i - 1, by omega⟩
            simp
        | true =>
          cases h2 : decodeElems dec cs xs with
          | none => simp [h1, h2] at h
          | some q =>
            obtain ⟨b, r'⟩ := q
            simp only [h1, h2, if_true, Option.some.injEq, Prod.mk.injEq] at h
            obtain ⟨hb, hr⟩ := h
            subst hb hr
            obtain ⟨hl, k, c1, x1, y1, hc, hx, hd, hrk, hlt, hgt⟩ := ih xs r' h2
            refine ⟨by simp [hl], k + 1, c1, x1, y1, by simpa using hc, by simpa using hx,
              hd, by simpa using hrk, ?_, ?_⟩
            · intro i c0 x0 hi hc0 hx0
              cases i with
              | zero =>
                simp only [List.getElem?_cons_zero, Option.some.injEq] at hc0 hx0
                subst hc0 hx0
                exact ⟨x', h1, by simp⟩
              | succ i =>
                simp only [List.getElem?_cons_succ] at hc0 hx0
                obtain ⟨y0, hy0, hr0⟩ := hlt i c0 x0 (by omega) hc0 hx0
                exact ⟨y0, hy0, by simpa using hr0⟩
            · intro i hi
              obtain ⟨j, rfl⟩ : ∃ j, i = j + 1 := ⟨i - 1, by omega⟩
              simpa using hgt j (by omega)

end LoopLemmas

/-! ## The claims -/

section Claims

variable {S : Type u} {T : Type u}

theorem getElem?_vectorResize [Inhabited T] (v : List T) (n i : Nat) (hi : i < n) :
    (vectorResize v n)[i]? = some (v.getD i default) := by
  unfold vectorResize
  by_cases h : i < v.length
  · rw [List.getElem?_append_left (by simp; omega), List.getElem?_take_of_lt hi]
    simp [List.getD, List.getElem?_eq_getElem h]
  · have h1 : (v.take n).length ≤ i := by simp; omega
    rw [List.getElem?_append_right h1, List.getElem?_replicate]
    have h2 : i - (v.take n).length < n - v.length := by simp; omega
    have h3 : v[i]? = none := List.getElem?_eq_none (by omega)
    rw [if_pos h2]
    simp [List.getD, h3]

theorem Convert_vector_from_not_array [Inhabited T] (nss : AnyCollection S → Nat)
    (dec : AnyCollection S → T → Option (Bool × T)) (c : AnyCollection S) (v : List T)
    (hc : c.isArray = false) :
    Convert_vector_from nss dec c v = if nss c = 0 then some (true, []) else none := by
  have hsize : c.size nss = nss c := by
    cases c with
    | array xs => simp [AnyCollection.isArray] at hc
    | null => rfl
    | value s => rfl
  have hget : ∀ i, c.get i = none := by
    intro i
    cases c with
    | array xs => simp [AnyCollection.isArray] at hc
    | null => rfl
    | value s => rfl
  unfold Convert_vector_from
  simp only [hsize, length_vectorResize]
  by_cases h0 : nss c = 0
  · have hv : vectorResize v 0 = [] := List.length_eq_zero.mp (length_vectorResize v 0)
    simp [h0, hv, Convert_vector_from_loop]
  · obtain ⟨m, hm⟩ : ∃ m, nss c = m + 1 := ⟨nss c - 1, by omega⟩
    rw [hm, List.range_eq_range', List.range'_succ]
    simp [Convert_vector_from_loop, hget]

/-- The destination of `LoadJSON` is never written: whatever the stream
holds, the call returns with the destination it was given. -/
theorem LoadJSON_destination {Strm : Type} (read : Strm → AnyCollection S × Strm)
    (bad : Strm → Bool) (coerce : S → Option T) (inp : Strm) (x : T) :
    ∃ ok, LoadJSON read bad coerce inp x = some (ok, x, (read inp).2) := by
  unfold LoadJSON
  by_cases hb : bad (read inp).2 = true
  · exact ⟨false, by simp [hb]⟩
  · exact ⟨((read inp).1.as coerce x).1, by simp [hb, Convert_from_const]⟩

/-- On a sequence node the call `Convert(msg,x)` of `LoadJSON` returns
`false`: the typed extraction is not the array decoding. -/
theorem LoadJSON_sequence {Strm : Type} (read : Strm → AnyCollection S × Strm)
    (bad : Strm → Bool) (coerce : S → Option T) (inp : Strm) (x : T)
    (xs : List (AnyCollection S)) (hr : (read inp).1 = AnyCollection.array xs) :
    LoadJSON read bad coerce inp x = some (false, x, (read inp).2) := by
  unfold LoadJSON
  by_cases hb : bad (read inp).2 = true
  · simp [hb]
  · simp [hb, Convert_from_const, hr, AnyCollection.as]

/-- C2 on the code: the stream round trip fails.  The vector `[4, 5, 6]` is
saved as a sequence node, and `LoadJSON` on that stream returns `false` and
leaves the destination `[]`, whatever the stored scalars coerce to; the scalar
`5` is saved as a scalar node, and `LoadJSON` returns `true` on it and leaves
the destination `0`. -/
theorem SaveJSON_LoadJSON_no_round_trip :
    SaveJSON exampleWrite (Convert_vector_to (Convert_to (fun n : Int => n)))
      ([], false) [4, 5, 6]
      = some ([AnyCollection.array [.value 4, .value 5, .value 6]], false) ∧
    (∀ coerce : Int → Option (List Int),
      LoadJSON exampleRead (fun s => s.2) coerce
        ([AnyCollection.array [.value 4, .value 5, .value 6]], false) []
        = some (false, [], ([], false))) ∧
    SaveJSON exampleWrite (Convert_to (fun n : Int => n)) ([], false) 5
      = some ([AnyCollection.value 5], false) ∧
    LoadJSON exampleRead (fun s => s.2) (fun n : Int => some n)
      ([AnyCollection.value 5], false) 0 = some (true, 0, ([], false)) :=
  ⟨rfl, fun coerce => LoadJSON_sequence exampleRead (fun s => s.2) coerce
    ([AnyCollection.array [.value 4, .value 5, .value 6]], false) []
    [.value 4, .value 5, .value 6] rfl, rfl, rfl⟩

/-- C3 fails on the code: the array decoding does not look at the tag.  On
the scalar node `1` it never returns `false`, whatever the size query gives on
a scalar node, and where that size is `0` it returns `true` with an empty
vector. -/
theorem Convert_vector_from_scalar_counterexample :
    (¬ ∃ (nss : AnyCollection Int → Nat) (r : List Int),
      Convert_vector_from nss (Convert_from (fun n : Int => some n))
        (AnyCollection.value 1) [5] = some (false, r)) ∧
    Convert_vector_from (fun _ => 0) (Convert_from (fun n : Int => some n))
      (AnyCollection.value 1) [5] = some (true, []) ∧
    Convert_vector_from (fun _ => 1) (Convert_from (fun n : Int => some n))
      (AnyCollection.value 1) [5] = none := by
  refine ⟨?_, by decide, by decide⟩
  rintro ⟨nss, r, h⟩
  rw [Convert_vector_from_not_array nss _ (AnyCollection.value 1) _ rfl] at h
  split at h <;> simp at h

/-- C3, amended: the array decoding of a scalar node makes no tag test.  It
resizes the vector to the size the tree reports for the node; where that size
is `0` it returns `true` with the vector emptied, and otherwise it indexes the
scalar node, an access the tree does not define.  It never returns `false`. -/
theorem Convert_vector_from_scalar [Inhabited T] (nss : AnyCollection S → Nat)
    (dec : AnyCollection S → T → Option (Bool × T)) (s : S) (v : List T) :
    Convert_vector_from nss dec (AnyCollection.value s) v =
        (if nss (AnyCollection.value s) = 0 then some (true, []) else none) ∧
      ∀ r : List T, Convert_vector_from nss dec (AnyCollection.value s) v ≠ some (false, r) := by
  have h := Convert_vector_from_not_array nss dec (AnyCollection.value s) v rfl
  refine ⟨h, ?_⟩
  intro r hr
  rw [h] at hr
  split at hr <;> simp at hr

/-- C5 fails on the code: decoding a sequence whose second child holds a
text into the vector `[7, 8, 9, 10]` returns `false` and leaves the vector
`[1, 8, 9]`, resized and with its first element overwritten. -/
theorem Convert_vector_from_partial_counterexample :
    Convert_vector_from (fun _ => 0) (Convert_from (Sum.getLeft? : Int ⊕ String → Option Int))
      (AnyCollection.array [.value (Sum.inl 1), .value (Sum.inr "two"), .value (Sum.inl 3)])
      [7, 8, 9, 10] = some (false, [1, 8, 9]) ∧
    ([1, 8, 9] : List Int) ≠ [7, 8, 9, 10] := by
  constructor
  · rfl
  · decide

/-- C5, amended: a failed array decoding leaves the vector resized in place
and partly written.  Its length is `c.size()`.  There is a child `c[k]` whose
element decode returned `false` after the element decodes of all children
before it returned `true`; the elements before `k` hold the values those
decodes produced, the element at `k` is as the failing decode left it, and
every element after `k` is the one the resize produced (the previous element
of the vector, or a default one). -/
theorem Convert_vector_from_failure_state [Inhabited T] (nss : AnyCollection S → Nat)
    (dec : AnyCollection S → T → Option (Bool × T))
    (c : AnyCollection S) (v r : List T)
    (h : Convert_vector_from nss dec c v = some (false, r)) :
    r.length = c.size nss ∧
      ∃ (k : Nat) (ck : AnyCollection S) (xk yk : T),
        c.get k = some ck ∧ (vectorResize v (c.size nss))[k]? = some xk ∧
        dec ck xk = some (false, yk) ∧ r[k]? = some yk ∧
        (∀ (i : Nat) (c0 : AnyCollection S) (x0 : T), i < k → c.get i = some c0 →
          (vectorResize v (c.size nss))[i]? = some x0 →
          ∃ y0, dec c0 x0 = some (true, y0) ∧ r[i]? = some y0) ∧
        (∀ i : Nat, k < i → r[i]? = (vectorResize v (c.size nss))[i]?) ∧
        (∀ i : Nat, k < i → i < c.size nss → r[i]? = some (v.getD i default)) := by
  cases c with
  | null =>
    rw [Convert_vector_from_not_array nss dec AnyCollection.null v rfl] at h
    split at h <;> simp at h
  | value s =>
    rw [Convert_vector_from_not_array nss dec (AnyCollection.value s) v rfl] at h
    split at h <;> simp at h
  | array cs =>
    rw [Convert_vector_from_array] at h
    obtain ⟨hl, k, ck, xk, yk, hc, hx, hd, hrk, hlt, hgt⟩ := decodeElems_false dec cs _ r h
    have hlen : r.length = cs.length := by rw [hl, length_vectorResize]
    refine ⟨hlen, k, ck, xk, yk, ?_, hx, hd, hrk, ?_, hgt, ?_⟩
    · simpa [AnyCollection.get] using hc
    · intro i c0 x0 hi hc0 hx0
      exact hlt i c0 x0 hi (by simpa [AnyCollection.get] using hc0) hx0
    · intro i hi hic
      rw [hgt i hi]
      exact getElem?_vectorResize v cs.length i hic

/-- Witness of C5 as amended, on the input of the counterexample: the
failing child is the second one, and the third element is the previous
element `9` of the vector. -/
theorem Convert_vector_from_failure_state_witness :
    Convert_vector_from (fun _ => 0) (Convert_from (Sum.getLeft? : Int ⊕ String → Option Int))
      (AnyCollection.array [.value (Sum.inl 1), .value (Sum.inr "two"), .value (Sum.inl 3)])
      [7, 8, 9, 10] = some (false, [1, 8, 9]) ∧
    ([1, 8, 9] : List Int).length =
      (AnyCollection.array [AnyCollection.value (Sum.inl 1), .value (Sum.inr "two"),
        .value (Sum.inl (3 : Int))] : AnyCollection (Int ⊕ String)).size (fun _ => 0) ∧
      ∃ (k : Nat) (ck : AnyCollection (Int ⊕ String)) (xk yk : Int),
        (AnyCollection.array [AnyCollection.value (Sum.inl 1), .value (Sum.inr "two"),
          .value (Sum.inl (3 : Int))] : AnyCollection (Int ⊕ String)).get k = some ck ∧
        (vectorResize ([7, 8, 9, 10] : List Int)
          ((AnyCollection.array [AnyCollection.value (Sum.inl 1), .value (Sum.inr "two"),
            .value (Sum.inl (3 : Int))] : AnyCollection (Int ⊕ String)).size
              (fun _ => 0)))[k]? = some xk ∧
        Convert_from (Sum.getLeft? : Int ⊕ String → Option Int) ck xk = some (false, yk) ∧
        ([1, 8, 9] : List Int)[k]? = some yk ∧
        (∀ (i : Nat) (c0 : AnyCollection (Int ⊕ String)) (x0 : Int), i < k →
          (AnyCollection.array [AnyCollection.value (Sum.inl 1), .value (Sum.inr "two"),
            .value (Sum.inl (3 : Int))] : AnyCollection (Int ⊕ String)).get i = some c0 →
          (vectorResize ([7, 8, 9, 10] : List Int)
            ((AnyCollection.array [AnyCollection.value (Sum.inl 1), .value (Sum.inr "two"),
              .value (Sum.inl (3 : Int))] : AnyCollection (Int ⊕ String)).size
                (fun _ => 0)))[i]? = some x0 →
          ∃ y0, Convert_from (Sum.getLeft? : Int ⊕ String → Option Int) c0 x0
              = some (true, y0) ∧ ([1, 8, 9] : List Int)[i]? = some y0) ∧
        (∀ i : Nat, k < i → ([1, 8, 9] : List Int)[i]? =
          (vectorResize ([7, 8, 9, 10] : List Int)
            ((AnyCollection.array [AnyCollection.value (Sum.inl 1), .value (Sum.inr "two"),
              .value (Sum.inl (3 : Int))] : AnyCollection (Int ⊕ String)).size
                (fun _ => 0)))[i]?) ∧
        (∀ i : Nat, k < i →
          i < (AnyCollection.array [AnyCollection.value (Sum.inl 1), .value (Sum.inr "two"),
            .value (Sum.inl (3 : Int))] : AnyCollection (Int ⊕ String)).size (fun _ => 0) →
          ([1, 8, 9] : List Int)[i]? = some (([7, 8, 9, 10] : List Int).getD i default)) :=
  ⟨rfl, Convert_vector_from_failure_state (fun _ => 0)
    (Convert_from (Sum.getLeft? : Int ⊕ String → Option Int))
    (AnyCollection.array [.value (Sum.inl 1), .value (Sum.inr "two"), .value (Sum.inl 3)])
    [7, 8, 9, 10] [1, 8, 9] rfl⟩

/-- C8 on the code.  On an empty stream the read fails and `LoadJSON`
returns `false` with the destination untouched.  On a stream holding the
sequence `[2, 3]` the read succeeds, and `LoadJSON` into a vector returns
`false` with the destination `[1]` untouched, whatever the stored scalars
coerce to, while the conversion from collection to array, the one resolved
for a vector, gives `true` with `[2, 3]` on the tree read. -/
theorem LoadJSON_not_resolved_conversion :
    (∀ coerce : Int → Option (List Int),
      LoadJSON exampleRead (fun s => s.2) coerce ([], false) [1]
        = some (false, [1], ([], true))) ∧
    (exampleRead ([AnyCollection.array [.value 2, .value 3]], false)
      = (AnyCollection.array [.value 2, .value 3], ([], false))) ∧
    (∀ coerce : Int → Option (List Int),
      LoadJSON exampleRead (fun s => s.2) coerce
        ([AnyCollection.array [.value 2, .value 3]], false) [1]
        = some (false, [1], ([], false))) ∧
    Convert_vector_from (fun _ => 0) (Convert_from (fun n : Int => some n))
      (AnyCollection.array [.value 2, .value 3]) [1] = some (true, [2, 3]) :=
  ⟨fun _ => rfl, rfl,
   fun coerce => LoadJSON_sequence exampleRead (fun s => s.2) coerce
    ([AnyCollection.array [.value 2, .value 3]], false) [1] [.value 2, .value 3] rfl,
   rfl⟩

/-- C9: default scalar conversion.  The default encoding makes the node the
scalar node holding `x`.  The default decoding returns the result of the typed
extraction `c.as<T>`; on a scalar node it returns `true` with the destination
set to the coerced stored value when the stored scalar coerces to `T`, and
`false` when it does not. -/
theorem Convert_default_scalar (store : T → S) (coerce : S → Option T)
    (x out : T) (c : AnyCollection S) (s : S) :
    Convert_to store x c = some (AnyCollection.value (store x)) ∧
    Convert_from coerce c out = some (c.as coerce out) ∧
    Convert_from coerce (AnyCollection.value s) out =
      some ((coerce s).isSome, (coerce s).getD out) := by
  refine ⟨rfl, rfl, ?_⟩
  cases h : coerce s <;> simp [Convert_from, AnyCollection.as, h]

/-- Example of C9: with numbers and texts as stored scalars, the number `5`
encodes to the scalar node `5` and decodes back, and a node holding a text
fails to decode as a number. -/
theorem Convert_default_scalar_example :
    Convert_to (Sum.inl : Int → Int ⊕ String) 5 AnyCollection.null
      = some (AnyCollection.value (Sum.inl 5)) ∧
    Convert_from (Sum.getLeft? : Int ⊕ String → Option Int)
      (AnyCollection.value (Sum.inl 5)) 0 = some (true, 5) ∧
    Convert_from (Sum.getLeft? : Int ⊕ String → Option Int)
      (AnyCollection.value (Sum.inr "five")) 0 = some (false, 0) :=
  ⟨(Convert_default_scalar Sum.inl Sum.getLeft? 5 0 AnyCollection.null (Sum.inl 5)).1,
   (Convert_default_scalar Sum.inl Sum.getLeft? 5 0 AnyCollection.null (Sum.inl 5)).2.2,
   (Convert_default_scalar Sum.inl Sum.getLeft? 5 0 AnyCollection.null (Sum.inr "five")).2.2⟩

/-- C10: destructive resize on decode.  After a successful array decoding of
a sequence node, the vector has length `c.size()`, its `i`-th element is the
value the element decode of `c[i]` produced (applied to the element the
resized vector held at `i`), and nothing is left at the indices from
`c.size()` on. -/
theorem Convert_vector_from_success_state [Inhabited T] (nss : AnyCollection S → Nat)
    (dec : AnyCollection S → T → Option (Bool × T))
    (cs : List (AnyCollection S)) (v r : List T)
    (h : Convert_vector_from nss dec (AnyCollection.array cs) v = some (true, r)) :
    r.length = (AnyCollection.array cs).size nss ∧
    (∀ (i : Nat) (c : AnyCollection S), cs[i]? = some c →
      ∃ x y, (vectorResize v cs.length)[i]? = some x ∧ dec c x = some (true, y) ∧
        r[i]? = some y) ∧
    (∀ i : Nat, (AnyCollection.array cs).size nss ≤ i → r[i]? = none) := by
  rw [Convert_vector_from_array] at h
  obtain ⟨hl, hi⟩ := decodeElems_true dec cs _ r h
  have hlen : r.length = cs.length := by rw [hl, length_vectorResize]
  refine ⟨hlen, ?_, ?_⟩
  · intro i c hc
    have hlt : i < cs.length := (List.getElem?_eq_some_iff.mp hc).1
    have hb : i < (vectorResize v cs.length).length := by
      rw [length_vectorResize]; exact hlt
    have hx : (vectorResize v cs.length)[i]? = some (vectorResize v cs.length)[i] :=
      List.getElem?_eq_getElem hb
    obtain ⟨y, hy, hr⟩ := hi i c _ hc hx
    exact ⟨_, y, hx, hy, hr⟩
  · intro i hi
    have hi' : cs.length ≤ i := hi
    exact List.getElem?_eq_none (by omega)

/-- Witness of C10: decoding a sequence of two children into a vector of
four elements leaves the two decoded elements. -/
theorem Convert_vector_from_success_state_witness :
    Convert_vector_from (fun _ => 0) (Convert_from (fun n : Int => some n))
      (AnyCollection.array [.value 1, .value 2]) [7, 8, 9, 10] = some (true, [1, 2]) ∧
    ([1, 2] : List Int).length =
      (AnyCollection.array [AnyCollection.value (1 : Int), .value 2]).size (fun _ => 0) ∧
    (∀ (i : Nat) (c : AnyCollection Int),
      [AnyCollection.value (1 : Int), AnyCollection.value 2][i]? = some c →
      ∃ x y, (vectorResize ([7, 8, 9, 10] : List Int) 2)[i]? = some x ∧
        Convert_from (fun n : Int => some n) c x = some (true, y) ∧
        ([1, 2] : List Int)[i]? = some y) ∧
    (∀ i : Nat, (AnyCollection.array [AnyCollection.value (1 : Int), .value 2]).size
      (fun _ => 0) ≤ i → ([1, 2] : List Int)[i]? = none) :=
  ⟨rfl, Convert_vector_from_success_state (fun _ => 0)
    (Convert_from (fun n : Int => some n)) [.value 1, .value 2] [7, 8, 9, 10] [1, 2] rfl⟩

/-- C11: empty collection edge case.  Encoding the empty vector into any node
yields the sequence node of size 0, which is sequence-tagged and is not the
absent node, and decoding that node returns `true` and leaves the destination
empty, whatever it held before. -/
theorem Convert_vector_empty [Inhabited T] (nss : AnyCollection S → Nat)
    (enc : T → AnyCollection S → Option (AnyCollection S))
    (dec : AnyCollection S → T → Option (Bool × T))
    (c : AnyCollection S) (out : List T) :
    Convert_vector_to enc [] c = some (AnyCollection.array []) ∧
    (AnyCollection.array [] : AnyCollection S).isArray = true ∧
    (AnyCollection.array [] : AnyCollection S).size nss = 0 ∧
    (AnyCollection.array [] : AnyCollection S) ≠ AnyCollection.null ∧
    Convert_vector_from nss dec (AnyCollection.array []) out = some (true, []) := by
  refine ⟨?_, rfl, rfl, ?_, ?_⟩
  · rw [Convert_vector_to_eq]
    simp [encodeSlots]
  · intro h
    cases h
  · rw [Convert_vector_from_array]
    have hv : vectorResize out 0 = [] := List.length_eq_zero.mp (length_vectorResize out 0)
    simp [hv, decodeElems]

/-- Example of C11: the empty vector of integers, encoded over a node that
held a sequence and decoded into a vector that held three elements. -/
theorem Convert_vector_empty_example :
    Convert_vector_to (Convert_to (fun n : Int => n)) []
      (AnyCollection.array [.value 4, .value 5]) = some (AnyCollection.array []) ∧
    Convert_vector_from (fun _ => 0) (Convert_from (fun n : Int => some n))
      (AnyCollection.array []) [7, 8, 9] = some (true, []) :=
  ⟨(Convert_vector_empty (fun _ => 0) (Convert_to (fun n : Int => n))
      (Convert_from (fun n : Int => some n)) (AnyCollection.array [.value 4, .value 5])
      [7, 8, 9]).1,
   (Convert_vector_empty (fun _ => 0) (Convert_to (fun n : Int => n))
      (Convert_from (fun n : Int => some n)) (AnyCollection.array [.value 4, .value 5])
      [7, 8, 9]).2.2.2.2⟩

theorem encode_loop_inbounds (enc : T → AnyCollection S → Option (AnyCollection S))
    (v : List T)
    (henc : ∀ x ∈ v, ∀ c : AnyCollection S, ∃ c', enc x c = some c') :
    ∀ (is : List Nat) (ys : List (AnyCollection S)),
    (∀ i ∈ is, i < v.length) → ys.length = v.length →
    ∃ zs, Convert_vector_to_loop enc v is (AnyCollection.array ys)
        = some (AnyCollection.array zs) ∧ zs.length = v.length := by
  intro is
  induction is with
  | nil => intro ys _ hy; exact ⟨ys, rfl, hy⟩
  | cons i is ih =>
    intro ys hin hy
    have hi : i < v.length := hin i (by simp)
    have hiy : i < ys.length := by omega
    obtain ⟨s', hs'⟩ := henc v[i] (List.getElem_mem hi) ys[i]
    obtain ⟨zs, hz, hl⟩ := ih (ys.set i s') (fun j hj => hin j (by simp [hj])) (by simp [hy])
    refine ⟨zs, ?_, hl⟩
    simp only [Convert_vector_to_loop, AnyCollection.get, List.get?_eq_getElem?,
      List.getElem?_eq_getElem hi, List.getElem?_eq_getElem hiy, hs', AnyCollection.set,
      hiy, if_true]
    exact hz

theorem encode_loop_append (enc : T → AnyCollection S → Option (AnyCollection S))
    (v : List T) : ∀ (is js : List Nat) (c : AnyCollection S),
    Convert_vector_to_loop enc v (is ++ js) c =
      (Convert_vector_to_loop enc v is c).bind (Convert_vector_to_loop enc v js) := by
  intro is
  induction is with
  | nil => intro js c; rfl
  | cons i is ih =>
    intro js c
    simp only [List.cons_append, Convert_vector_to_loop]
    cases hx : v.get? i with
    | none => rfl
    | some x =>
      cases hs : c.get i with
      | none => rfl
      | some slot =>
        simp only []
        cases he : enc x slot with
        | none => rfl
        | some slot' =>
          simp only []
          cases hc : c.set i slot' with
          | none => rfl
          | some c' => exact ih js c'

theorem encode_cast_loop_append (enc : T → AnyCollection S → Option (AnyCollection S))
    (v : List T) : ∀ (is js : List Nat) (c : AnyCollection S),
    Convert_vector_to_cast_loop enc v (is ++ js) c =
      (Convert_vector_to_cast_loop enc v is c).bind (Convert_vector_to_cast_loop enc v js) := by
  intro is
  induction is with
  | nil => intro js c; rfl
  | cons i is ih =>
    intro js c
    simp only [List.cons_append, Convert_vector_to_cast_loop]
    cases hx : v.get? i with
    | none => rfl
    | some x =>
      cases hs : c.getInt (intOfSize i) with
      | none => rfl
      | some slot =>
        simp only []
        cases he : enc x slot with
        | none => rfl
        | some slot' =>
          simp only []
          cases hc : c.setInt (intOfSize i) slot' with
          | none => rfl
          | some c' => exact ih js c'

theorem intOfSize_of_lt (i : Nat) (hi : i < 2 ^ 31) : intOfSize i = (i : Int) := by
  have h1 : i % 2 ^ 32 = i := Nat.mod_eq_of_lt (by omega)
  unfold intOfSize
  rw [h1, if_pos hi]

theorem intOfSize_neg (i : Nat) (h1 : 2 ^ 31 ≤ i) (h2 : i < 2 ^ 32) : intOfSize i < 0 := by
  have hm : i % 2 ^ 32 = i := Nat.mod_eq_of_lt h2
  unfold intOfSize
  rw [hm, if_neg (by omega)]
  omega

theorem getInt_natCast (c : AnyCollection S) (i : Nat) : c.getInt (i : Int) = c.get i := by
  simp [AnyCollection.getInt]

theorem setInt_natCast (c x : AnyCollection S) (i : Nat) :
    c.setInt (i : Int) x = c.set i x := by
  simp [AnyCollection.setInt]

theorem getInt_of_neg (c : AnyCollection S) (i : Int) (hi : i < 0) : c.getInt i = none := by
  simp [AnyCollection.getInt, Int.not_le.mpr hi]

/-- The loop with the conversion `(int)i` explicit is the loop over the
counters themselves as long as every counter is at most `INT_MAX`. -/
theorem encode_cast_loop_eq (enc : T → AnyCollection S → Option (AnyCollection S))
    (v : List T) : ∀ (is : List Nat) (c : AnyCollection S),
    (∀ i ∈ is, i < 2 ^ 31) →
    Convert_vector_to_cast_loop enc v is c = Convert_vector_to_loop enc v is c := by
  intro is
  induction is with
  | nil => intro c _; rfl
  | cons i is ih =>
    intro c hin
    have hi : i < 2 ^ 31 := hin i (by simp)
    simp only [Convert_vector_to_cast_loop, Convert_vector_to_loop, intOfSize_of_lt i hi,
      getInt_natCast, setInt_natCast]
    cases hx : v.get? i with
    | none => rfl
    | some x =>
      cases hs : c.get i with
      | none => rfl
      | some slot =>
        simp only []
        cases he : enc x slot with
        | none => rfl
        | some slot' =>
          simp only []
          cases hc : c.set i slot' with
          | none => rfl
          | some c' => exact ih c' (fun j hj => hin j (by simp [hj]))

/-- On a vector of at most `2^31` elements the conversion with `(int)i`
explicit is the conversion that indexes with the counter. -/
theorem Convert_vector_to_cast_eq (enc : T → AnyCollection S → Option (AnyCollection S))
    (v : List T) (c : AnyCollection S) (hv : v.length ≤ 2 ^ 31) :
    Convert_vector_to_cast enc v c = Convert_vector_to enc v c := by
  unfold Convert_vector_to_cast Convert_vector_to
  exact encode_cast_loop_eq enc v _ _ (fun i hi => by have := List.mem_range.mp hi; omega)

theorem decode_cast_loop_eq (dec : AnyCollection S → T → Option (Bool × T))
    (c : AnyCollection S) : ∀ (is : List Nat) (v : List T),
    (∀ i ∈ is, i < 2 ^ 31) →
    Convert_vector_from_cast_loop dec c is v = Convert_vector_from_loop dec c is v := by
  intro is
  induction is with
  | nil => intro v _; rfl
  | cons i is ih =>
    intro v hin
    have hi : i < 2 ^ 31 := hin i (by simp)
    simp only [Convert_vector_from_cast_loop, Convert_vector_from_loop, intOfSize_of_lt i hi,
      getInt_natCast]
    cases hs : c.get i with
    | none => rfl
    | some ci =>
      cases hx : v.get? i with
      | none => rfl
      | some x =>
        simp only []
        cases hd : dec ci x with
        | none => rfl
        | some p =>
          obtain ⟨ok, x'⟩ := p
          simp only []
          cases ok with
          | false => rfl
          | true =>
            simp only [if_true]
            exact ih _ (fun j hj => hin j (by simp [hj]))

/-- On a node of size at most `2^31` the decoding with `(int)i` explicit is
the decoding that indexes with the counter. -/
theorem Convert_vector_from_cast_eq [Inhabited T] (nss : AnyCollection S → Nat)
    (dec : AnyCollection S → T → Option (Bool × T)) (c : AnyCollection S) (v : List T)
    (hc : c.size nss ≤ 2 ^ 31) :
    Convert_vector_from_cast nss dec c v = Convert_vector_from nss dec c v := by
  unfold Convert_vector_from_cast Convert_vector_from
  exact decode_cast_loop_eq dec c _ _ (fun i hi => by
    have := List.mem_range.mp hi
    rw [length_vectorResize] at this
    omega)

/-- A vector with a counter `m` whose conversion `(int)m` is negative is not
encoded: the run reaches the access `c[(int)m]`, below the bounds, unless it
stops earlier. -/
theorem Convert_vector_to_cast_overflow (enc : T → AnyCollection S → Option (AnyCollection S))
    (v : List T) (c : AnyCollection S) (m : Nat) (hm : m < v.length)
    (hneg : intOfSize m < 0) :
    Convert_vector_to_cast enc v c = none := by
  have hsplit : List.range v.length =
      List.range m ++ (m :: List.range' (m + 1) (v.length - m - 1)) := by
    rw [List.range_eq_range', List.range_eq_range']
    have h := List.range'_append 0 m (v.length - m) 1
    simp only [Nat.one_mul, Nat.zero_add] at h
    have h2 : v.length - m + m = v.length := by omega
    rw [h2] at h
    rw [← h]
    congr 1
    have h3 : v.length - m = (v.length - m - 1) + 1 := by omega
    rw [h3, List.range'_succ]
    simp
  unfold Convert_vector_to_cast
  rw [hsplit, encode_cast_loop_append]
  cases Convert_vector_to_cast_loop enc v (List.range m) (c.resize v.length) with
  | none => rfl
  | some c1 =>
    simp only [Option.bind, Convert_vector_to_cast_loop, getInt_of_neg c1 _ hneg]
    cases v.get? m <;> rfl

theorem fitsInt_succ {T : Type u} (d : Nat) (v : List (NestedVector T d))
    (h : NestedVector.fitsInt (d + 1) v = true) :
    v.length ≤ 2 ^ 31 ∧ ∀ x ∈ v, NestedVector.fitsInt d x = true := by
  have h' : (decide (v.length ≤ 2 ^ 31) && v.all (NestedVector.fitsInt d)) = true := h
  rw [Bool.and_eq_true, decide_eq_true_eq, List.all_eq_true] at h'
  exact h'

theorem Convert_nested_to_total (store : T → S) :
    ∀ (d : Nat) (x : NestedVector T d) (c : AnyCollection S),
    NestedVector.fitsInt d x = true →
    ∃ c', Convert_nested_to store d x c = some c' := by
  intro d
  induction d with
  | zero => intro x c _; exact ⟨_, rfl⟩
  | succ d ih =>
    intro x c hfit
    obtain ⟨hlen, hall⟩ := fitsInt_succ d x hfit
    show ∃ c', Convert_vector_to_cast (Convert_nested_to store d) x c = some c'
    rw [Convert_vector_to_cast_eq _ _ _ hlen]
    unfold Convert_vector_to
    rw [resize_eq_array]
    obtain ⟨zs, hz, _⟩ := encode_loop_inbounds (Convert_nested_to store d) x
      (fun y hy c0 => ih y c0 (hall y hy)) (List.range (List.length x))
      (resizedSlots c (List.length x))
      (fun j hj => List.mem_range.mp hj) (length_resizedSlots c (List.length x))
    exact ⟨AnyCollection.array zs, hz⟩

/-- C12 fails on the code: the loop indexes the node with `(int)i`.  At the
counter `2^31` the index is `-2^31`, and the conversion of a vector of
`2^31 + 1` elements does not complete: it reaches a slot access outside the
bounds `0 <= i < c.size()`. -/
theorem Convert_vector_to_cast_counterexample :
    intOfSize 2147483648 = -2147483648 ∧
    Convert_vector_to_cast (Convert_to (fun n : Int => n))
      (List.replicate 2147483649 (0 : Int)) AnyCollection.null = none := by
  constructor
  · decide
  · exact Convert_vector_to_cast_overflow (Convert_to (fun n : Int => n))
      (List.replicate 2147483649 (0 : Int)) AnyCollection.null 2147483648
      (by rw [List.length_replicate]; decide)
      (intOfSize_neg 2147483648 (by decide) (by decide))

/-- C12, amended: for a vector nested to any depth whose vectors, at every
level, have at most `2^31` elements, the conversion to collection completes
with a node, and so does the conversion of every element; for every counter
`i` of its loop the index `(int)i` is not negative, and before the iteration
`i` the node is a sequence whose size exceeds `(int)i`, so that the slot
access `c[(int)i]` is within the bounds the resize established. -/
theorem Convert_nested_to_in_bounds (store : T → S) (d : Nat)
    (v : List (NestedVector T d)) (c : AnyCollection S)
    (hfit : NestedVector.fitsInt (d + 1) v = true) :
    (∃ c', Convert_nested_to store (d + 1) v c = some c') ∧
    (∀ x ∈ v, ∀ c0 : AnyCollection S, ∃ c', Convert_nested_to store d x c0 = some c') ∧
    (∀ i : Nat, i < v.length →
      0 ≤ intOfSize i ∧
      ∃ ci, Convert_vector_to_cast_loop (Convert_nested_to store d) v (List.range i)
          (c.resize v.length) = some ci ∧
        Convert_nested_to store (d + 1) v c =
          Convert_vector_to_cast_loop (Convert_nested_to store d) v
            (List.range' i (v.length - i)) ci ∧
        ci.isArray = true ∧
        ∀ nss : AnyCollection S → Nat, (intOfSize i).toNat < ci.size nss) := by
  obtain ⟨hlen, hall⟩ := fitsInt_succ d v hfit
  refine ⟨Convert_nested_to_total store (d + 1) v c hfit,
    fun x hx c0 => Convert_nested_to_total store d x c0 (hall x hx), ?_⟩
  intro i hi
  have hi31 : i < 2 ^ 31 := by omega
  have hcast : intOfSize i = (i : Int) := intOfSize_of_lt i hi31
  obtain ⟨zs, hz, hl⟩ := encode_loop_inbounds (Convert_nested_to store d) v
    (fun y hy c0 => Convert_nested_to_total store d y c0 (hall y hy))
    (List.range i) (resizedSlots c v.length)
    (fun j hj => by have := List.mem_range.mp hj; omega) (length_resizedSlots c v.length)
  rw [← resize_eq_array,
    ← encode_cast_loop_eq _ _ _ _ (fun j hj => by have := List.mem_range.mp hj; omega)] at hz
  refine ⟨by rw [hcast]; exact Int.ofNat_nonneg i, AnyCollection.array zs, hz, ?_, rfl, ?_⟩
  · show Convert_vector_to_cast (Convert_nested_to store d) v c = _
    have hsplit : List.range v.length = List.range i ++ List.range' i (v.length - i) := by
      rw [List.range_eq_range', List.range_eq_range']
      have h := List.range'_append 0 i (v.length - i) 1
      simp only [Nat.one_mul, Nat.zero_add] at h
      rw [h]
      congr 1
      omega
    unfold Convert_vector_to_cast
    rw [hsplit, encode_cast_loop_append, hz]
    rfl
  · intro nss
    rw [hcast]
    show (i : Int).toNat < zs.length
    simp only [Int.toNat_ofNat]
    omega

/-- Witness of C12 as amended on a vector of vectors of integers: the
conversion gives the sequence of the sequences. -/
theorem Convert_nested_to_in_bounds_witness :
    NestedVector.fitsInt 2 ([[1], [2, 3]] : List (List Int)) = true ∧
    Convert_nested_to (fun n : Int => n) 2 ([[1], [2, 3]] : List (List Int))
      AnyCollection.null =
      some (AnyCollection.array [.array [.value 1], .array [.value 2, .value 3]]) ∧
    ((∃ c', Convert_nested_to (fun n : Int => n) 2
      ([[1], [2, 3]] : List (List Int)) AnyCollection.null = some c') ∧
    (∀ x ∈ ([[1], [2, 3]] : List (List Int)), ∀ c0 : AnyCollection Int,
      ∃ c', Convert_nested_to (fun n : Int => n) 1 x c0 = some c') ∧
    (∀ i : Nat, i < ([[1], [2, 3]] : List (List Int)).length →
      0 ≤ intOfSize i ∧
      ∃ ci, Convert_vector_to_cast_loop (Convert_nested_to (fun n : Int => n) 1)
          ([[1], [2, 3]] : List (List Int)) (List.range i)
          ((AnyCollection.null : AnyCollection Int).resize
            ([[1], [2, 3]] : List (List Int)).length) = some ci ∧
        Convert_nested_to (fun n : Int => n) 2 ([[1], [2, 3]] : List (List Int))
            AnyCollection.null =
          Convert_vector_to_cast_loop (Convert_nested_to (fun n : Int => n) 1)
            ([[1], [2, 3]] : List (List Int))
            (List.range' i (([[1], [2, 3]] : List (List Int)).length - i)) ci ∧
        ci.isArray = true ∧
        ∀ nss : AnyCollection Int → Nat, (intOfSize i).toNat < ci.size nss)) :=
  ⟨by decide, rfl,
   Convert_nested_to_in_bounds (fun n : Int => n) 1
      ([[1], [2, 3]] : List (List Int)) AnyCollection.null (by decide)⟩

theorem decodeElems_independent (dec : AnyCollection S → T → Option (Bool × T))
    (hdec : ∀ (c : AnyCollection S) (x1 x2 : T),
      (dec c x1).map Prod.fst = (dec c x2).map Prod.fst ∧
      ∀ y1 y2 : T, dec c x1 = some (true, y1) → dec c x2 = some (true, y2) → y1 = y2) :
    ∀ (cs : List (AnyCollection S)) (xs1 xs2 : List T),
    xs1.length = cs.length → xs2.length = cs.length →
    (decodeElems dec cs xs1).map Prod.fst = (decodeElems dec cs xs2).map Prod.fst ∧
    ∀ r1 r2 : List T, decodeElems dec cs xs1 = some (true, r1) →
      decodeElems dec cs xs2 = some (true, r2) → r1 = r2 := by
  intro cs
  induction cs with
  | nil =>
    intro xs1 xs2 h1 h2
    have e1 : xs1 = [] := List.length_eq_zero.mp (by simpa using h1)
    have e2 : xs2 = [] := List.length_eq_zero.mp (by simpa using h2)
    subst e1 e2
    exact ⟨rfl, fun r1 r2 hr1 hr2 => by rw [hr1] at hr2; simpa using hr2⟩
  | cons c cs ih =>
    intro xs1 xs2 h1 h2
    cases xs1 with
    | nil => simp at h1
    | cons x1 t1 =>
      cases xs2 with
      | nil => simp at h2
      | cons x2 t2 =>
        obtain ⟨hflag, hval⟩ := hdec c x1 x2
        obtain ⟨ihflag, ihval⟩ := ih t1 t2 (by simpa using h1) (by simpa using h2)
        simp only [decodeElems]
        cases hd1 : dec c x1 with
        | none =>
          cases hd2 : dec c x2 with
          | none => simp
          | some p2 => rw [hd1, hd2] at hflag; simp at hflag
        | some p1 =>
          cases hd2 : dec c x2 with
          | none => rw [hd1, hd2] at hflag; simp at hflag
          | some p2 =>
            obtain ⟨b1, y1⟩ := p1
            obtain ⟨b2, y2⟩ := p2
            rw [hd1, hd2] at hflag
            have hb : b1 = b2 := by simpa using hflag
            subst hb
            cases b1 with
            | false => simp
            | true =>
              have hy : y1 = y2 := hval y1 y2 hd1 hd2
              subst hy
              simp only [if_true]
              cases he1 : decodeElems dec cs t1 with
              | none =>
                cases he2 : decodeElems dec cs t2 with
                | none => simp
                | some q2 => rw [he1, he2] at ihflag; simp at ihflag
              | some q1 =>
                cases he2 : decodeElems dec cs t2 with
                | none => rw [he1, he2] at ihflag; simp at ihflag
                | some q2 =>
                  obtain ⟨f1, r1⟩ := q1
                  obtain ⟨f2, r2⟩ := q2
                  rw [he1, he2] at ihflag
                  have hf : f1 = f2 := by simpa using ihflag
                  subst hf
                  refine ⟨by simp, ?_⟩
                  intro s1 s2 hs1 hs2
                  simp only [Option.some.injEq, Prod.mk.injEq] at hs1 hs2
                  obtain ⟨hf1, rfl⟩ := hs1
                  obtain ⟨_, rfl⟩ := hs2
                  subst hf1
                  rw [ihval r1 r2 he1 he2]

/-- C15: decode does not depend on the previous contents of the output.
Provided the element decode's flag and, on success, its value do not depend on
the previous value of the element, the array decoding of any node into two
vectors returns the same flag (or is undefined for both), and when both
succeed the two vectors are left equal. -/
theorem Convert_vector_from_independent [Inhabited T] (nss : AnyCollection S → Nat)
    (dec : AnyCollection S → T → Option (Bool × T))
    (hdec : ∀ (c : AnyCollection S) (x1 x2 : T),
      (dec c x1).map Prod.fst = (dec c x2).map Prod.fst ∧
      ∀ y1 y2 : T, dec c x1 = some (true, y1) → dec c x2 = some (true, y2) → y1 = y2)
    (c : AnyCollection S) (v1 v2 : List T) :
    (Convert_vector_from nss dec c v1).map Prod.fst =
      (Convert_vector_from nss dec c v2).map Prod.fst ∧
    ∀ r1 r2 : List T, Convert_vector_from nss dec c v1 = some (true, r1) →
      Convert_vector_from nss dec c v2 = some (true, r2) → r1 = r2 := by
  cases c with
  | null =>
    rw [Convert_vector_from_not_array nss dec AnyCollection.null v1 rfl,
      Convert_vector_from_not_array nss dec AnyCollection.null v2 rfl]
    refine ⟨rfl, ?_⟩
    intro r1 r2 h1 h2
    rw [h1] at h2
    simpa using h2
  | value s =>
    rw [Convert_vector_from_not_array nss dec (AnyCollection.value s) v1 rfl,
      Convert_vector_from_not_array nss dec (AnyCollection.value s) v2 rfl]
    refine ⟨rfl, ?_⟩
    intro r1 r2 h1 h2
    rw [h1] at h2
    simpa using h2
  | array cs =>
    rw [Convert_vector_from_array, Convert_vector_from_array]
    exact decodeElems_independent dec hdec cs _ _ (length_vectorResize v1 cs.length)
      (length_vectorResize v2 cs.length)

theorem Convert_from_independent (coerce : S → Option T) (c : AnyCollection S) (x1 x2 : T) :
    (Convert_from coerce c x1).map Prod.fst = (Convert_from coerce c x2).map Prod.fst ∧
    ∀ y1 y2 : T, Convert_from coerce c x1 = some (true, y1) →
      Convert_from coerce c x2 = some (true, y2) → y1 = y2 := by
  cases c with
  | null => simp [Convert_from, AnyCollection.as]
  | array xs => simp [Convert_from, AnyCollection.as]
  | value s =>
    cases h : coerce s with
    | none => simp [Convert_from, AnyCollection.as, h]
    | some y =>
      simp only [Convert_from, AnyCollection.as, h, Option.map_some', Option.some.injEq,
        Prod.mk.injEq, true_and]
      intro y1 y2 h1 h2
      rw [← h1, ← h2]

/-- Witness of C15: a sequence of integers decoded into the vectors
`[7, 8, 9]` and `[]`, with the default scalar decode of the elements. -/
theorem Convert_vector_from_independent_witness :
    (∀ (c : AnyCollection Int) (x1 x2 : Int),
      (Convert_from (fun n : Int => some n) c x1).map Prod.fst =
        (Convert_from (fun n : Int => some n) c x2).map Prod.fst ∧
      ∀ y1 y2 : Int, Convert_from (fun n : Int => some n) c x1 = some (true, y1) →
        Convert_from (fun n : Int => some n) c x2 = some (true, y2) → y1 = y2) ∧
    Convert_vector_from (fun _ => 0) (Convert_from (fun n : Int => some n))
      (AnyCollection.array [.value 1, .value 2]) [7, 8, 9] = some (true, [1, 2]) ∧
    Convert_vector_from (fun _ => 0) (Convert_from (fun n : Int => some n))
      (AnyCollection.array [.value 1, .value 2]) [] = some (true, [1, 2]) ∧
    ((Convert_vector_from (fun _ => 0) (Convert_from (fun n : Int => some n))
        (AnyCollection.array [.value 1, .value 2]) [7, 8, 9]).map Prod.fst =
      (Convert_vector_from (fun _ => 0) (Convert_from (fun n : Int => some n))
        (AnyCollection.array [.value 1, .value 2]) []).map Prod.fst ∧
    ∀ r1 r2 : List Int,
      Convert_vector_from (fun _ => 0) (Convert_from (fun n : Int => some n))
        (AnyCollection.array [.value 1, .value 2]) [7, 8, 9] = some (true, r1) →
      Convert_vector_from (fun _ => 0) (Convert_from (fun n : Int => some n))
        (AnyCollection.array [.value 1, .value 2]) [] = some (true, r2) → r1 = r2) :=
  ⟨Convert_from_independent (fun n : Int => some n), rfl, rfl,
   Convert_vector_from_independent (fun _ => 0) (Convert_from (fun n : Int => some n))
    (Convert_from_independent (fun n : Int => some n))
    (AnyCollection.array [.value 1, .value 2]) [7, 8, 9] []⟩

theorem lookup_removeField (name : String) (r : RecordNode S) :
    List.lookup name (removeField name r) = none := by
  unfold removeField
  induction r with
  | nil => rfl
  | cons p t ih =>
    obtain ⟨k, c⟩ := p
    by_cases h : k = name
    · subst h
      simpa [List.filter] using ih
    · have h1 : (k != name) = true := by simpa using h
      have h2 : (name == k) = false := by
        simp only [beq_eq_false_iff_ne, ne_eq]
        exact fun e => h e.symm
      rw [List.filter_cons_of_pos (by simpa using h1), List.lookup_cons, h2]
      exact ih

theorem lookup_removeField_of_ne (name n : String) (hn : n ≠ name) (r : RecordNode S) :
    List.lookup n (removeField name r) = List.lookup n r := by
  unfold removeField
  induction r with
  | nil => rfl
  | cons p t ih =>
    obtain ⟨k, c⟩ := p
    by_cases h : k = name
    · subst h
      have h2 : (n == k) = false := by
        simp only [beq_eq_false_iff_ne, ne_eq]
        exact hn
      have h3 : List.filter (fun p : String × AnyCollection S => p.1 != k) ((k, c) :: t)
          = List.filter (fun p : String × AnyCollection S => p.1 != k) t := by
        simp [List.filter]
      rw [h3, List.lookup_cons, h2]
      exact ih
    · have h1 : (k != name) = true := by simpa using h
      rw [List.filter_cons_of_pos (by simpa using h1), List.lookup_cons, List.lookup_cons, ih]

theorem lookup_Convert_aggregate_to {A : Type u} :
    ∀ (fields : List (AggregateField S A)) (a : A) (r : RecordNode S),
    (fields.map (fun g => g.name)).Nodup →
    Convert_aggregate_to fields a = some r →
    ∀ g ∈ fields, ∃ c, g.enc a AnyCollection.null = some c ∧
      List.lookup g.name r = some c := by
  intro fields
  induction fields with
  | nil => intro a r _ _ g hg; simp at hg
  | cons g0 gs ih =>
    intro a r hnd henc g hg
    simp only [Convert_aggregate_to] at henc
    cases h1 : g0.enc a AnyCollection.null with
    | none => simp [h1] at henc
    | some c0 =>
      cases h2 : Convert_aggregate_to gs a with
      | none => simp [h1, h2] at henc
      | some t =>
        simp only [h1, h2, Option.some.injEq] at henc
        subst henc
        rw [List.map_cons, List.nodup_cons] at hnd
        rcases List.mem_cons.mp hg with rfl | hmem
        · exact ⟨c0, h1, by simp [List.lookup_cons]⟩
        · obtain ⟨c, hc, hl⟩ := ih a t hnd.2 h2 g hmem
          have hne : g.name ≠ g0.name := by
            intro e
            exact hnd.1 (e ▸ List.mem_map_of_mem (fun g => g.name) hmem)
          have hb : (g.name == g0.name) = false := by
            simp only [beq_eq_false_iff_ne, ne_eq]
            exact hne
          exact ⟨c, hc, by rw [List.lookup_cons, hb]; exact hl⟩

theorem Convert_aggregate_from_present {A : Type u} :
    ∀ (gs : List (AggregateField S A)) (r : RecordNode S) (a0 : A),
    (∀ g ∈ gs, ∃ c, List.lookup g.name r = some c ∧
      ∀ a1 : A, ∃ a2, g.dec c a1 = Except.ok a2) →
    ∃ a', Convert_aggregate_from gs r a0 = Except.ok a' := by
  intro gs
  induction gs with
  | nil => intro r a0 _; exact ⟨a0, rfl⟩
  | cons g gs ih =>
    intro r a0 hall
    obtain ⟨c, hl, hd⟩ := hall g (by simp)
    obtain ⟨a2, ha2⟩ := hd a0
    simp only [Convert_aggregate_from, hl, ha2]
    exact ih r a2 (fun g' hg' => hall g' (by simp [hg']))

theorem Convert_aggregate_from_absent {A : Type u} (name : String) :
    ∀ (gs : List (AggregateField S A)) (r : RecordNode S) (a0 : A),
    List.lookup name r = none →
    (∃ g ∈ gs, g.name = name) →
    (∀ g ∈ gs, g.name = name ∨ ∃ c, List.lookup g.name r = some c ∧
      ∀ a1 : A, ∃ a2, g.dec c a1 = Except.ok a2) →
    Convert_aggregate_from gs r a0 = Except.error (ConversionError.MissingField name) := by
  intro gs
  induction gs with
  | nil => intro r a0 _ hex _; obtain ⟨g, hg, _⟩ := hex; simp at hg
  | cons g gs ih =>
    intro r a0 hl hex hall
    rcases hall g (by simp) with hname | ⟨c, hc, hd⟩
    · simp only [Convert_aggregate_from, hname, hl]
    · have hne : g.name ≠ name := by
        intro e
        rw [e, hl] at hc
        cases hc
      obtain ⟨a2, ha2⟩ := hd a0
      simp only [Convert_aggregate_from, hc, ha2]
      refine ih r a2 hl ?_ (fun g' hg' => hall g' (by simp [hg']))
      obtain ⟨g1, hg1, hn1⟩ := hex
      rcases List.mem_cons.mp hg1 with rfl | hmem
      · exact absurd hn1 hne
      · exact ⟨g1, hmem, hn1⟩

/-- C14: missing-field detection for aggregates.  For a registered aggregate
with named required fields of distinct names, whose fields decode from their
own encodings, the node that encodes a value decodes successfully, and the
node obtained from it by removing the slot of one required field decodes to
the failure `MissingField` naming that field. -/
theorem Convert_aggregate_from_missing_field {A : Type u}
    (fields : List (AggregateField S A)) (a a0 : A) (r : RecordNode S)
    (f : AggregateField S A) (hf : f ∈ fields)
    (hnames : (fields.map (fun g => g.name)).Nodup)
    (henc : Convert_aggregate_to fields a = some r)
    (hrt : ∀ g ∈ fields, ∀ c : AnyCollection S, g.enc a AnyCollection.null = some c →
      ∀ a1 : A, ∃ a2, g.dec c a1 = Except.ok a2) :
    (∃ a', Convert_aggregate_from fields r a0 = Except.ok a') ∧
    Convert_aggregate_from fields (removeField f.name r) a0 =
      Except.error (ConversionError.MissingField f.name) := by
  have hlook := lookup_Convert_aggregate_to fields a r hnames henc
  constructor
  · apply Convert_aggregate_from_present
    intro g hg
    obtain ⟨c, hc, hl⟩ := hlook g hg
    exact ⟨c, hl, hrt g hg c hc⟩
  · apply Convert_aggregate_from_absent f.name fields _ a0 (lookup_removeField f.name r)
      ⟨f, hf, rfl⟩
    intro g hg
    by_cases hn : g.name = f.name
    · exact Or.inl hn
    · obtain ⟨c, hc, hl⟩ := hlook g hg
      exact Or.inr ⟨c, by rw [lookup_removeField_of_ne f.name g.name hn]; exact hl,
        hrt g hg c hc⟩

/-- Witness of C14: the spec's scenario.  The aggregate
`{x: 1.0, y: 2.0, z: 3.0}` encodes to the record of the slots `x`, `y`, `z`,
and with the slot `y` removed it decodes to `MissingField "y"`. -/
theorem Convert_aggregate_from_missing_field_witness :
    vector3FieldY ∈ vector3Fields ∧
    (vector3Fields.map (fun g => g.name)).Nodup ∧
    Convert_aggregate_to vector3Fields ⟨1.0, 2.0, 3.0⟩ =
      some [("x", .value 1.0), ("y", .value 2.0), ("z", .value 3.0)] ∧
    (∀ g ∈ vector3Fields, ∀ c : AnyCollection Float,
      g.enc ⟨1.0, 2.0, 3.0⟩ AnyCollection.null = some c →
      ∀ a1 : Math3D.Vector3, ∃ a2, g.dec c a1 = Except.ok a2) ∧
    Convert_aggregate_from vector3Fields
      (removeField "y" [("x", .value 1.0), ("y", .value 2.0), ("z", .value 3.0)])
      ⟨0.0, 0.0, 0.0⟩ = Except.error (ConversionError.MissingField "y") ∧
    ((∃ a', Convert_aggregate_from vector3Fields
      [("x", .value 1.0), ("y", .value 2.0), ("z", .value 3.0)] ⟨0.0, 0.0, 0.0⟩
        = Except.ok a') ∧
    Convert_aggregate_from vector3Fields (removeField vector3FieldY.name
      [("x", .value 1.0), ("y", .value 2.0), ("z", .value 3.0)]) ⟨0.0, 0.0, 0.0⟩
        = Except.error (ConversionError.MissingField vector3FieldY.name)) := by
  have hmem : vector3FieldY ∈ vector3Fields :=
    List.mem_cons_of_mem _ (List.mem_cons_self _ _)
  have hnames : (vector3Fields.map (fun g => g.name)).Nodup := by decide
  have hrt : ∀ g ∈ vector3Fields, ∀ c : AnyCollection Float,
      g.enc ⟨1.0, 2.0, 3.0⟩ AnyCollection.null = some c →
      ∀ a1 : Math3D.Vector3, ∃ a2, g.dec c a1 = Except.ok a2 := by
    intro g hg c hc a1
    simp only [vector3Fields, List.mem_cons, List.mem_singleton, List.not_mem_nil,
      or_false] at hg
    rcases hg with rfl | rfl | rfl
    · have hc' : AnyCollection.value (1.0 : Float) = c := Option.some.inj hc
      subst hc'
      exact ⟨_, rfl⟩
    · have hc' : AnyCollection.value (2.0 : Float) = c := Option.some.inj hc
      subst hc'
      exact ⟨_, rfl⟩
    · have hc' : AnyCollection.value (3.0 : Float) = c := Option.some.inj hc
      subst hc'
      exact ⟨_, rfl⟩
  exact ⟨hmem, hnames, rfl, hrt, rfl,
    Convert_aggregate_from_missing_field vector3Fields ⟨1.0, 2.0, 3.0⟩ ⟨0.0, 0.0, 0.0⟩
      [("x", .value 1.0), ("y", .value 2.0), ("z", .value 3.0)] vector3FieldY hmem hnames
      rfl hrt⟩

end Claims
